import Mathlib

/-!
Verification of the parsekit library (Go): a shallow embedding of its
scanner, token stream, recursive-descent parser and error-recovery
machinery, together with theorems settling the specification claims.

Modelling conventions:
* Go strings are modelled as `List Char`; cursor offsets are indices into
  that list (the source code counts byte offsets; for the properties
  below, which never depend on multi-byte encodings, character
  granularity is equivalent).
* Go `panic`/`recover` control flow is made explicit through outcome
  types (`POutcome`, `SyncOutcome`, `AutoResult`, `ErrOut`).
* The byte-reader based scanner is modelled with its window fully
  materialised, so `extend()` returns 0 (the in-memory / exhausted-reader
  case exercised by the repository's tests).
-/

/-- Go `error` values, identified by their message text. -/
abbrev GoErr := List Char

/-- The dynamic (`any`) payload of a token: nil interface, an error,
a string, an integer, or some other value. -/
inductive Val where
  | vnil : Val
  | verr (e : GoErr) : Val
  | vstr (s : List Char) : Val
  | vint (n : Int) : Val
  | vother (tag : Nat) : Val
deriving DecidableEq, Repr

/-- `Token` from scanner.go (second variant): type tag (a Go rune, i.e.
a signed integer), dynamic value, lexeme and the private `pos` offset. -/
structure Token where
  type_ : Int := 0
  value : Val := .vnil
  lexeme : List Char := []
  pos : Nat := 0
deriving DecidableEq, Repr

/-- `var EOF Token`: the zero token. -/
def eofTok : Token := {}

/-- `var Ignore = Token{Type: InvalidToken}` with `InvalidToken = -1`. -/
def ignoreTok : Token := { type_ := -1 }

/-- `Position` from scanner.go. `column` is an `Int` because `locate`
computes it by repeated subtraction. -/
structure Position where
  filename : List Char := []
  offset : Nat := 0
  line : Nat := 0
  column : Int := 0
deriving DecidableEq, Repr

/-- The payload of a structured parse failure (`parseError` in parse.go). -/
structure ParseErr where
  pos : Position := {}
  msg : List Char := []
deriving DecidableEq, Repr

/-- `src[a:b]` slicing on the model of a Go string. -/
def extract (src : List Char) (a b : Nat) : List Char := (src.drop a).take (b - a)

/-- Number of newline characters in a character list. -/
def countNl : List Char → Nat
  | [] => 0
  | c :: rest => (if c = '\n' then 1 else 0) + countNl rest

/-- `strings.Split(s, "\n")` on the character-list model. -/
def splitNl : List Char → List (List Char)
  | [] => [[]]
  | c :: rest =>
    match splitNl rest with
    | [] => [[]]
    | l :: ls => if c = '\n' then [] :: l :: ls else (c :: l) :: ls

/-- The string-backed `Scanner` of scanner.go (second variant). -/
structure StrScanner where
  src : List Char
  fname : List Char := []
  err : Option GoErr := none
  start : Nat := 0
  off : Nat := 0
deriving DecidableEq, Repr

/-- `utf8.RuneError`. -/
def runeError : Char := Char.ofNat 0xFFFD

/-- `Scanner.Advance`: return the next character and move the cursor,
or return the error rune unchanged at end of input. -/
def Advance (s : StrScanner) : Char × StrScanner :=
  if h : s.off < s.src.length then
    (s.src.get ⟨s.off, h⟩, { s with off := s.off + 1 })
  else (runeError, s)

/-- `Scanner.Peek`: the next character without moving the cursor. -/
def PeekS (s : StrScanner) : Char × StrScanner :=
  if h : s.off < s.src.length then (s.src.get ⟨s.off, h⟩, s) else (runeError, s)

/-- `Scanner.locate`: map a token's offset to a `Position`, counting the
lines of `src[:tk.pos]` with `strings.Split`. -/
def locate (sc : StrScanner) (tk : Token) : Position :=
  if (splitNl (sc.src.take tk.pos)).length > 1 then
    { filename := sc.fname, offset := tk.pos,
      line := (splitNl (sc.src.take tk.pos)).length,
      column := (splitNl (sc.src.take tk.pos)).foldl
        (fun a l => a - (l.length : Int)) (tk.pos : Int) }
  else
    { filename := sc.fname, offset := tk.pos, line := 1, column := (tk.pos : Int) }

/-- A `Lexer` for the string-backed scanner: it reads from the source at
the given cursor offset and returns the produced token together with the
new offset (the only scanner state a lexer can change through
`Advance`/`Peek`). -/
abbrev LexFn := List Char → Nat → Token × Nat

/-- The loop body of `Scanner.Tokens` (second variant), with explicit
fuel for termination: while `off < len(src)`, run the lexer, stamp the
token's `pos`/`Lexeme` from the cursor pair unless it is `Ignore`, reset
`start` to `off`, and finally yield `EOF` once. -/
def tokensLoop (lx : LexFn) (src : List Char) : Nat → Nat → Nat → List Token
  | 0, _, _ => []
  | fuel + 1, start, off =>
    if off < src.length then
      let r := lx src off
      let rest := tokensLoop lx src fuel r.2 r.2
      if r.1 = ignoreTok then rest
      else { r.1 with pos := start, lexeme := extract src start r.2 } :: rest
    else [eofTok]

/-- `Scanner.Tokens`: with a sticky construction error, yield a single
error-carrying token and stop; otherwise run the scan loop from
`start = 0`. -/
def Tokens (sc : StrScanner) (lx : LexFn) (fuel : Nat) : List Token :=
  match sc.err with
  | some e => [{ type_ := 0, value := .verr e }]
  | none => tokensLoop lx sc.src fuel 0 sc.off

/-- One iteration of the `Scanner.Tokens` loop as a state transformer:
the optional yielded token, and the scanner state afterwards. -/
def tokensIter (lx : LexFn) (s : StrScanner) : Option Token × StrScanner :=
  if s.off < s.src.length then
    let r := lx s.src s.off
    let yielded := if r.1 = ignoreTok then none
      else some { r.1 with pos := s.start, lexeme := extract s.src s.start r.2 }
    (yielded, { s with off := r.2, start := r.2 })
  else (some eofTok, s)

/-- Errors accumulated in `Parser.errors` (`errors.Join` is modelled as
list concatenation, assignment as list replacement). -/
inductive AccErr where
  | srcErr (e : GoErr) : AccErr
  | synErr (pe : ParseErr) : AccErr
deriving DecidableEq, Repr

/-- The parser state of parse.go (second variant): pulled token stream,
one-token lookahead with its `peek` flag, accumulated errors,
synchronization literals, and the owned scanner. -/
structure PState where
  stream : List Token := []
  peek : Bool := false
  tok : Token := eofTok
  errors : List AccErr := []
  syncLit : List (List Char) := []
  sc : StrScanner
deriving DecidableEq, Repr

/-- `Parser.lnext`: fetch the lookahead token if not peeking.  Pulling
an exhausted iterator yields the zero token. -/
def lnext (st : PState) : PState :=
  if st.peek then st
  else
    match st.stream with
    | [] => { st with tok := eofTok }
    | t :: rest => { st with tok := t, stream := rest }

/-- Outcome of a parser primitive: normal return, `panic(parseError …)`,
or `panic(stopparsing{})`. -/
inductive POutcome where
  | ret (st : PState)
  | perr (st : PState) (e : ParseErr)
  | stop (st : PState)
deriving Repr

/-- Whether an outcome is a structured parse failure. -/
def POutcome.isPerr : POutcome → Bool
  | .perr _ _ => true
  | _ => false

/-- One hexadecimal digit, lower case. -/
def hexDigit (n : Nat) : Char := if n < 10 then Char.ofNat (48 + n) else Char.ofNat (87 + n)

/-- Escaping of one character by Go's `%q` verb (`strconv.Quote`),
restricted to the single-byte range used by this repository. -/
def goQuoteChar (q : Char) : List Char :=
  if q = '"' then ['\\', '"']
  else if q = '\\' then ['\\', '\\']
  else if q = '\n' then ['\\', 'n']
  else if q = '\t' then ['\\', 't']
  else if q = '\r' then ['\\', 'r']
  else if 32 ≤ q.toNat ∧ q.toNat ≤ 126 then [q]
  else ['\\', 'x', hexDigit (q.toNat / 16 % 16), hexDigit (q.toNat % 16)]

/-- Go's `%q` formatting of a string. -/
def goQuote (s : List Char) : List Char := '"' :: ((s.map goQuoteChar).flatten ++ ['"'])

/-- A character which `%q` renders as itself: printable ASCII, neither
quote nor backslash. -/
def goPlainChar (c : Char) : Bool :=
  decide (32 ≤ c.toNat ∧ c.toNat ≤ 126 ∧ c ≠ '"' ∧ c ≠ '\\')

/-- The message built by `Parser.Expect` on a mismatch:
`fmt.Sprintf("expected %s, got %q instead", msg, lexeme)`. -/
def expectMsg (msg lex : List Char) : List Char :=
  "expected ".toList ++ msg ++ ", got ".toList ++ goQuote lex ++ " instead".toList

/-- `Parser.Errf` (second variant): with a sticky scanner error, replace
the accumulated errors by it and raise the terminal stop signal;
otherwise raise a structured parse failure located at the current
lookahead token. -/
def Errf (st : PState) (msg : List Char) : POutcome :=
  match st.sc.err with
  | some e => .stop { st with errors := [.srcErr e] }
  | none => .perr st { pos := locate st.sc st.tok, msg := msg }

/-- `Parser.Expect`: fetch the lookahead if needed; on a type match
consume it (clear `peek`), otherwise build the mismatch message and call
`Errf`. -/
def Expect (st : PState) (tk : Int) (msg : List Char) : POutcome :=
  if (lnext st).tok.type_ = tk then .ret { lnext st with peek := false }
  else Errf (lnext st) (expectMsg msg (lnext st).tok.lexeme)

/-- The value `recover()` hands to `Parser.Synchronize`: no panic, the
terminal `stopparsing{}` signal, a `parseError`, or any other payload
(modelled by a numeric identity). -/
inductive Recovered where
  | rnone : Recovered
  | rstop : Recovered
  | rparse (pe : ParseErr) : Recovered
  | rother (v : Nat) : Recovered
deriving DecidableEq, Repr

/-- Outcome of `Parser.Synchronize`: normal return, or a re-raised
panic carrying a `parseError` payload. -/
inductive SyncOutcome where
  | ret (st : PState)
  | panicPE (pe : ParseErr)
deriving Repr

/-- The token-skipping part of the recovery loop, entered with the
`peek` flag clear: repeatedly pull a token; stop on `EOF` or on a token
whose lexeme is a synchronization literal (that token stays buffered).
Returns the remaining stream and the lookahead token. -/
def syncSkip (lits : List (List Char)) : List Token → List Token × Token
  | [] => ([], eofTok)
  | t :: rest =>
    if t = eofTok then (rest, t)
    else if t.lexeme ∈ lits then (rest, t)
    else syncSkip lits rest

/-- The `for p.More() { … p.Skip() }` recovery loop of
`Parser.Synchronize`, including the first iteration on an already
buffered lookahead. -/
def runSyncLoop (st : PState) : PState :=
  if st.peek ∧ (st.tok = eofTok ∨ st.tok.lexeme ∈ st.syncLit) then st
  else
    let p := syncSkip st.syncLit st.stream
    { st with stream := p.1, tok := p.2, peek := true }

/-- `Parser.Synchronize` (second variant).  Note the `rother` arm: in
the source, `pe, ok := err.(parseError); if !ok { panic(pe) }` re-panics
`pe`, which after the failed type assertion is the zero `parseError`
value — the original payload is dropped. -/
def Synchronize (st : PState) (r : Recovered) : SyncOutcome :=
  match r with
  | .rnone => .ret st
  | .rstop => .ret st
  | .rparse pe => .ret (runSyncLoop { st with errors := st.errors ++ [.synErr pe] })
  | .rother _ => .panicPE {}

/-- Escape sequences understood by the model of `strconv.Unquote`
(the subset exercised by this repository). -/
def escChar (c : Char) : Option Char :=
  if c = 'n' then some '\n'
  else if c = 't' then some '\t'
  else if c = 'r' then some '\r'
  else if c = '\\' then some '\\'
  else if c = '"' then some '"'
  else none

/-- The Go error text shared by `strconv` failures. -/
def invalidSyntax : GoErr := "invalid syntax".toList

/-- Body of a double-quoted Go string literal: everything up to an
unescaped closing quote, which must end the literal.  Modelled from
`strconv.Unquote` restricted to double-quoted ASCII literals. -/
def unquoteBody : List Char → Except GoErr (List Char)
  | [] => .error invalidSyntax
  | c :: rest =>
    if c = '"' then (if rest = [] then .ok [] else .error invalidSyntax)
    else if c = '\\' then
      match rest with
      | [] => .error invalidSyntax
      | d :: rest2 =>
        match escChar d with
        | some ch =>
          match unquoteBody rest2 with
          | .ok tl => .ok (ch :: tl)
          | .error e => .error e
        | none => .error invalidSyntax
    else
      match unquoteBody rest with
      | .ok tl => .ok (c :: tl)
      | .error e => .error e

/-- `strconv.Unquote` model (double-quoted literals). -/
def goUnquote (s : List Char) : Except GoErr (List Char) :=
  match s with
  | '"' :: rest => unquoteBody rest
  | _ => .error invalidSyntax

/-- `strconv.ParseInt(s, 10, 64)` model: optional sign followed by a
non-empty run of decimal digits (64-bit range errors are not modelled —
no claim depends on them). -/
def parseIntCore (ds : List Char) (neg : Bool) : Except GoErr Int :=
  if ds = [] ∨ ¬ ds.all (fun c => decide (48 ≤ c.toNat ∧ c.toNat ≤ 57)) then
    .error invalidSyntax
  else
    let n : Nat := ds.foldl (fun a c => a * 10 + (c.toNat - 48)) 0
    .ok (if neg then -(n : Int) else (n : Int))

/-- `strconv.ParseInt` model, sign handling. -/
def parseIntGo (s : List Char) : Except GoErr Int :=
  match s with
  | '-' :: rest => parseIntCore rest true
  | '+' :: rest => parseIntCore rest false
  | _ => parseIntCore s false

/-- The reflective dispatch of `Auto[T]`, reified: a type either carries
a `TextUnmarshaler` capability, is `string`, is `int`, or is something
else (named, unsupported). -/
inductive TargetTy where
  | unmarshaler (parse : List Char → Except GoErr Val) : TargetTy
  | tstr : TargetTy
  | tint : TargetTy
  | tother (name : List Char) : TargetTy

/-- Outcome of an `Auto` invocation: a token, or a Go panic. -/
inductive AutoResult where
  | tok (t : Token) : AutoResult
  | panicMsg (msg : List Char) : AutoResult
deriving Repr

/-- Whether an `Auto` invocation produced a token. -/
def AutoResult.isTok : AutoResult → Bool
  | .tok _ => true
  | _ => false

/-- `Auto[T]` from scanner.go (second variant): dispatch on the target
type over the current lexeme; parse failures become error-carrying
tokens; an unsupported target type hits `panic("not implemented")`. -/
def Auto (tt : TargetTy) (r : Int) (cursor : List Char) : AutoResult :=
  match tt with
  | .unmarshaler f =>
    match f cursor with
    | .error e => .tok { type_ := 0, value := .verr e }
    | .ok v => .tok { type_ := r, value := v }
  | .tstr =>
    match goUnquote cursor with
    | .error e => .tok { type_ := 0, value := .verr e }
    | .ok v => .tok { type_ := r, value := .vstr v }
  | .tint =>
    match parseIntGo cursor with
    | .error e => .tok { type_ := 0, value := .verr e }
    | .ok n => .tok { type_ := r, value := .vint n }
  | .tother _ => .panicMsg "not implemented".toList

/-- Result of `Token.Error()` (first variant of scanner.go): `nil`, a
recovered error, or a panic of the failed `t.Value.(error)` assertion. -/
inductive ErrOut where
  | ok (e : Option GoErr) : ErrOut
  | assertPanic : ErrOut
deriving DecidableEq, Repr

/-- `Token.Error` from scanner.go (first variant): `nil` for a non-zero
type tag, otherwise assert the value to an error — panicking when it is
not one (in particular on the `EOF` token, whose value is nil). -/
def Token.Error (t : Token) : ErrOut :=
  if t.type_ ≠ 0 then .ok none
  else
    match t.value with
    | .verr e => .ok (some e)
    | _ => .assertPanic

/-- The `quotechars` table: double quote, single quote, backtick. -/
def quotechars (c : Char) : Bool :=
  decide (c.toNat = 34 ∨ c.toNat = 39 ∨ c.toNat = 96)

/-- The `identchars` table, transcribed entry for entry: `a`–`z`,
`A`–`Y` (the source array stops at `'Y'` and has no `'Z'` entry),
underscore and hyphen. -/
def identchars (c : Char) : Bool :=
  decide ((97 ≤ c.toNat ∧ c.toNat ≤ 122) ∨ (65 ≤ c.toNat ∧ c.toNat ≤ 89) ∨
    c.toNat = 95 ∨ c.toNat = 45)

/-- The scan loop of `Scanner.LexString` after the opening quote:
`off` is the number of bytes handled so far; a backslash sets the escape
flag for the next character; an unescaped closing quote returns the
length including it; exhausting the window (extend() == 0) returns what
was scanned. -/
def LexStringAux (q : Char) : List Char → Bool → Nat → Nat
  | [], _, off => off
  | c :: rest, escaped, off =>
    if escaped then LexStringAux q rest false (off + 1)
    else if c = q then off + 1
    else if c = '\\' then LexStringAux q rest true (off + 1)
    else LexStringAux q rest false (off + 1)

/-- `Scanner.LexString` on the current window: 0 unless the window
starts with a quote character, else the delimited length. -/
def LexString (w : List Char) : Nat :=
  match w with
  | [] => 0
  | c :: rest => if quotechars c then LexStringAux c rest false 1 else 0

/-- `Scanner.LexIdent`: length of the maximal prefix of `identchars`. -/
def LexIdent : List Char → Nat
  | [] => 0
  | c :: rest => if identchars c then LexIdent rest + 1 else 0

/-- Well-formedness of a quoted-string body under the scanner's escape
discipline: scanning it from the unescaped state never meets an
unescaped quote of the same kind and does not end mid-escape (so the
closing delimiter that follows is recognised). -/
def bodyOk (q : Char) : List Char → Bool
  | [] => true
  | c :: rest =>
    if c = '\\' then
      match rest with
      | [] => false
      | _ :: rest2 => bodyOk q rest2
    else if c = q then false
    else bodyOk q rest

/-- Scan of the explicit `(byte, next-state)` pairs of one state's
transition row. -/
def findTrans : List Nat → Nat → Option Nat
  | a :: b :: rest, e => if a = e then some b else findTrans rest e
  | _, _ => none

/-- The `tt[0] == CatchAll` check of `ScanWithTable` (`CatchAll = 0`):
the catch-all target when the row's first entry is the sentinel byte. -/
def catchAllOf : List Nat → Option Nat
  | a :: b :: _ => if a = 0 then some b else none
  | _ => none

/-- The loop of `Scanner.ScanWithTable` over the window: look up the
next byte in the current state's row, stop without consuming when the
target is the end sentinel or nothing applies, otherwise consume and
continue (explicit transition first, then the catch-all). -/
def scanWithTableAux (trs : List (List Nat)) (endSt : Nat) :
    Nat → Nat → List Nat → Nat × Nat
  | state, off, [] => (state, off)
  | state, off, e :: rest =>
    match findTrans (trs.getD state []) e with
    | some n =>
      if n = endSt then (state, off)
      else scanWithTableAux trs endSt n (off + 1) rest
    | none =>
      match catchAllOf (trs.getD state []) with
      | some n =>
        if n = endSt then (state, off)
        else scanWithTableAux trs endSt n (off + 1) rest
      | none => (state, off)

/-- `Scanner.ScanWithTable`: start in state 0 with the end sentinel one
past the last state, and return `(accepting_state, bytes_consumed)`. -/
def ScanWithTable (trs : List (List Nat)) (w : List Nat) : Nat × Nat :=
  scanWithTableAux trs trs.length 0 0 w

/-- The merged number/IP/date transition table of `scanumeral`
(examplescanner_test.go), transcribed entry for entry with
numeral = 0, date = 1, time = 2, ip = 3, final = 4 and bytes written in
decimal (32 = space, 46 = dot, 47 = slash, 58 = colon, 59 = semicolon,
48–57 = digits). -/
def numeralTable : List (List Nat) :=
  [ [32, 4, 59, 4, 46, 3, 47, 1, 48, 0, 49, 0, 50, 0, 51, 0, 52, 0,
     53, 0, 54, 0, 55, 0, 56, 0, 57, 0],
    [32, 2, 47, 1, 48, 1, 49, 1, 50, 1, 51, 1, 52, 1, 53, 1, 54, 1,
     55, 1, 56, 1, 57, 1],
    [58, 2, 59, 4, 48, 2, 49, 2, 50, 2, 51, 2, 52, 2, 53, 2, 54, 2,
     55, 2, 56, 2, 57, 2],
    [58, 3, 32, 4, 59, 4, 46, 3, 48, 3, 49, 3, 50, 3, 51, 3, 52, 3,
     53, 3, 54, 3, 55, 3, 56, 3, 57, 3] ]

/-- The bytes of `"10.67.21.85;"`. -/
def ipWindowBytes : List Nat := [49, 48, 46, 54, 55, 46, 50, 49, 46, 56, 53, 59]

/-- State fixture: a parser over an empty source. -/
def sampleSyncState : PState := { sc := { src := [] } }

/-- State fixture: a parser whose scanner carries a sticky source
error, with a mismatching lookahead buffered. -/
def errScanState : PState :=
  { stream := [], peek := true,
    tok := { type_ := -2, lexeme := "opton".toList, pos := 0 },
    sc := { src := "opton".toList, err := some "read failure".toList } }

/-- State fixture: the TestErrMessage input with the misspelled
`opton` token (offset 22, line 2) buffered as lookahead. -/
def mismatchState : PState :=
  { stream := [], peek := true,
    tok := { type_ := -2, lexeme := "opton".toList, pos := 22 },
    sc := { src := ("option \"color\" \"red\"\n\topton \"destination\" \"Turin\"\n").toList,
            fname := "<input>".toList } }

/-- Scanner fixture over the two-character source `ab`. -/
def demoSc : StrScanner := { src := "ab".toList }

/-- Lexer fixture: one single-character token per call. -/
def demoLexer : LexFn := fun _ off => ({ type_ := 65 }, off + 1)

/-- Token fixture with a non-zero type tag. -/
def demoErrTok : Token := { type_ := 5 }

theorem quote_ne_backslash {q : Char} (hq : quotechars q = true) : ¬ q = '\\' := by
  intro h
  rw [h] at hq
  exact absurd hq (by decide)

theorem splitNl_ne_nil (s : List Char) : splitNl s ≠ [] := by
  cases s with
  | nil => simp [splitNl]
  | cons c rest =>
    cases h : splitNl rest with
    | nil => simp [splitNl, h]
    | cons l ls =>
      simp only [splitNl, h]
      split <;> simp

theorem splitNl_length (s : List Char) : (splitNl s).length = countNl s + 1 := by
  induction s with
  | nil => simp [splitNl, countNl]
  | cons c rest ih =>
    cases h : splitNl rest with
    | nil => exact absurd h (splitNl_ne_nil rest)
    | cons l ls =>
      rw [h] at ih
      by_cases hc : c = '\n' <;>
        simp only [splitNl, h, countNl, hc, if_true, if_false, List.length_cons] <;>
        (simp at ih ⊢; omega)

theorem locate_line (sc : StrScanner) (tk : Token) :
    (locate sc tk).line = countNl (sc.src.take tk.pos) + 1 := by
  by_cases h : (splitNl (sc.src.take tk.pos)).length > 1
  · simp only [locate, h, if_true]
    exact splitNl_length _
  · simp only [locate, h, if_false]
    have := splitNl_length (sc.src.take tk.pos)
    omega

theorem lnext_sc (st : PState) : (lnext st).sc = st.sc := by
  unfold lnext
  by_cases h : st.peek
  · simp [h]
  · cases hs : st.stream <;> simp [h, hs]

theorem goQuoteChar_plain (c : Char) (h : goPlainChar c = true) : goQuoteChar c = [c] := by
  have hp : 32 ≤ c.toNat ∧ c.toNat ≤ 126 ∧ c ≠ '"' ∧ c ≠ '\\' := by
    simpa [goPlainChar] using h
  obtain ⟨h1, h2, h3, h4⟩ := hp
  have hn : c ≠ '\n' := by intro hh; rw [hh] at h1; exact absurd h1 (by decide)
  have ht : c ≠ '\t' := by intro hh; rw [hh] at h1; exact absurd h1 (by decide)
  have hr : c ≠ '\r' := by intro hh; rw [hh] at h1; exact absurd h1 (by decide)
  simp [goQuoteChar, h1, h2, h3, h4, hn, ht, hr]

theorem goQuote_plain (s : List Char) (h : s.all goPlainChar = true) :
    goQuote s = '"' :: (s ++ ['"']) := by
  have hflat : (s.map goQuoteChar).flatten = s := by
    induction s with
    | nil => simp
    | cons c rest ih =>
      simp only [List.all_cons, Bool.and_eq_true] at h
      simp [goQuoteChar_plain c h.1, ih h.2]
  simp [goQuote, hflat]

theorem expectMsg_plain (msg lex : List Char) (h : lex.all goPlainChar = true) :
    expectMsg msg lex =
      "expected ".toList ++ msg ++ ", got \"".toList ++ lex ++ "\" instead".toList := by
  have e1 : ", got \"".toList = ", got ".toList ++ ['"'] := rfl
  have e2 : "\" instead".toList = '"' :: " instead".toList := rfl
  rw [expectMsg, goQuote_plain lex h, e1, e2]
  simp

theorem lexAux_wf (q : Char) (hq : quotechars q = true) :
    ∀ (n : Nat) (body : List Char), body.length ≤ n → bodyOk q body = true →
      ∀ (tail : List Char) (off : Nat),
        LexStringAux q (body ++ [q] ++ tail) false off = off + body.length + 1 := by
  intro n
  induction n with
  | zero =>
    intro body hb _ tail off
    have hnil : body = [] := List.length_eq_zero.mp (Nat.le_zero.mp hb)
    subst hnil
    simp [LexStringAux]
  | succ n ih =>
    intro body hb hok tail off
    match body with
    | [] => simp [LexStringAux]
    | c :: rest =>
      by_cases hc : c = '\\'
      · subst hc
        match rest with
        | [] =>
          rw [bodyOk.eq_def] at hok
          simp at hok
        | d :: rest2 =>
          have hok2 : bodyOk q rest2 = true := by
            rw [bodyOk.eq_def] at hok
            simpa using hok
          have hqb : ¬ ('\\' = q) := fun hh => quote_ne_backslash hq hh.symm
          have hlen : rest2.length ≤ n := by simp at hb; omega
          have step : LexStringAux q ((('\\' :: d :: rest2) ++ [q]) ++ tail) false off =
              LexStringAux q ((rest2 ++ [q]) ++ tail) false (off + 2) := by
            simp [LexStringAux, hqb]
          rw [step, ih rest2 hlen hok2 tail (off + 2)]
          simp
          omega
      · have hcq : ¬ (c = q) := by
          intro hh
          subst hh
          rw [bodyOk.eq_def] at hok
          simp [quote_ne_backslash hq] at hok
        have hok2 : bodyOk q rest = true := by
          rw [bodyOk.eq_def] at hok
          simpa [hc, hcq] using hok
        have hlen : rest.length ≤ n := by simp at hb; omega
        have step : LexStringAux q (((c :: rest) ++ [q]) ++ tail) false off =
            LexStringAux q ((rest ++ [q]) ++ tail) false (off + 1) := by
          simp [LexStringAux, hcq, hc]
        rw [step, ih rest hlen hok2 tail (off + 1)]
        simp
        omega

/-- Claim C3: `ScanWithTable` starts in state 0; for each unconsumed
byte it follows the explicit `(state, byte)` transition if one exists
(consuming the byte), stops without consuming when the target is the
final sentinel `len(transitions)` and reports the current state; with no
explicit match it applies the state's catch-all entry the same way; with
neither it stops without consuming and reports the current state; the
result is `(accepting_state, bytes_consumed)`.  Feeding the bytes of
`"10.67.21.85;"` through the merged number/IP/date table lands in the
ip state (3) with exactly 11 bytes consumed, `;` unconsumed. -/
theorem ScanWithTable_spec :
    (∀ (trs : List (List Nat)) (st off e : Nat) (rest : List Nat) (n : Nat),
       findTrans (trs.getD st []) e = some n → n ≠ trs.length →
       scanWithTableAux trs trs.length st off (e :: rest) =
         scanWithTableAux trs trs.length n (off + 1) rest) ∧
    (∀ (trs : List (List Nat)) (st off e : Nat) (rest : List Nat) (n : Nat),
       findTrans (trs.getD st []) e = some n → n = trs.length →
       scanWithTableAux trs trs.length st off (e :: rest) = (st, off)) ∧
    (∀ (trs : List (List Nat)) (st off e : Nat) (rest : List Nat) (n : Nat),
       findTrans (trs.getD st []) e = none → catchAllOf (trs.getD st []) = some n →
       n ≠ trs.length →
       scanWithTableAux trs trs.length st off (e :: rest) =
         scanWithTableAux trs trs.length n (off + 1) rest) ∧
    (∀ (trs : List (List Nat)) (st off e : Nat) (rest : List Nat) (n : Nat),
       findTrans (trs.getD st []) e = none → catchAllOf (trs.getD st []) = some n →
       n = trs.length →
       scanWithTableAux trs trs.length st off (e :: rest) = (st, off)) ∧
    (∀ (trs : List (List Nat)) (st off e : Nat) (rest : List Nat),
       findTrans (trs.getD st []) e = none → catchAllOf (trs.getD st []) = none →
       scanWithTableAux trs trs.length st off (e :: rest) = (st, off)) ∧
    (∀ (trs : List (List Nat)) (w : List Nat),
       ScanWithTable trs w = scanWithTableAux trs trs.length 0 0 w) ∧
    ScanWithTable numeralTable ipWindowBytes = (3, 11) := by
  refine ⟨?_, ?_, ?_, ?_, ?_, fun _ _ => rfl, by decide⟩
  · intro trs st off e rest n h hne
    simp only [scanWithTableAux]
    rw [h]
    simp [hne]
  · intro trs st off e rest n h hne
    simp only [scanWithTableAux]
    rw [h]
    simp [hne]
  · intro trs st off e rest n h hca hne
    simp only [scanWithTableAux]
    rw [h]
    simp only []
    rw [hca]
    simp [hne]
  · intro trs st off e rest n h hca hne
    simp only [scanWithTableAux]
    rw [h]
    simp only []
    rw [hca]
    simp [hne]
  · intro trs st off e rest h hca
    simp only [scanWithTableAux]
    rw [h]
    simp only []
    rw [hca]

/-- Witness for C3: a concrete explicit transition step. -/
theorem ScanWithTable_spec_witness :
    findTrans (([[48, 1], [5, 2]] : List (List Nat)).getD 0 []) 48 = some 1 ∧
    (1 : Nat) ≠ ([[48, 1], [5, 2]] : List (List Nat)).length ∧
    scanWithTableAux [[48, 1], [5, 2]] 2 0 0 [48] =
      scanWithTableAux [[48, 1], [5, 2]] 2 1 1 [] :=
  ⟨by decide, by decide,
    ScanWithTable_spec.1 [[48, 1], [5, 2]] 0 0 48 [] 1 (by decide) (by decide)⟩

/-- Claim C4: for every window beginning with a well-formed quoted
string (opening quote character, a body with no unescaped quote of the
same kind and no trailing half-escape, then the closing quote), and
with arbitrary further content after the closing quote, `LexString`
returns the exact length of that string including both delimiters —
the scan stops at the first unescaped closing quote and the trailing
window content is not counted; a window not starting with one of the
three quote characters (or empty) gives 0. -/
theorem LexString_spec :
    (∀ (q : Char) (body tail : List Char), quotechars q = true → bodyOk q body = true →
       LexString (q :: (body ++ [q] ++ tail)) = body.length + 2) ∧
    (∀ (c : Char) (rest : List Char), quotechars c = false → LexString (c :: rest) = 0) ∧
    LexString [] = 0 := by
  refine ⟨?_, ?_, rfl⟩
  · intro q body tail hq hok
    have h := lexAux_wf q hq body.length body le_rfl hok tail 1
    simp at h
    simp [LexString, hq]
    omega
  · intro c rest hc
    simp [LexString, hc]

/-- Witness for C4 at the window `"ab"XYZ`: the scan stops at the
closing quote, leaving `XYZ` uncounted. -/
theorem LexString_spec_witness :
    quotechars '"' = true ∧ bodyOk '"' "ab".toList = true ∧
    LexString ('"' :: ("ab".toList ++ ['"'] ++ "XYZ".toList)) = ("ab".toList).length + 2 :=
  ⟨by decide, by decide,
    LexString_spec.1 '"' "ab".toList "XYZ".toList (by decide) (by decide)⟩

/-- Claim C5: a backslash escapes exactly the next character — from the
unescaped state the scanner consumes a backslash and the following
character (even the quote) as one two-byte unit and continues scanning
unescaped, so it never terminates at an escaped quote; the repository's
`"handle \" escaped"` example scans to its full length 19. -/
theorem LexString_escape_spec :
    (∀ (q c : Char) (rest : List Char) (off : Nat), quotechars q = true →
       LexStringAux q ('\\' :: c :: rest) false off = LexStringAux q rest false (off + 2)) ∧
    LexString "\"handle \\\" escaped\"".toList = 19 := by
  constructor
  · intro q c rest off hq
    have hqb : ¬ ('\\' = q) := fun hh => quote_ne_backslash hq hh.symm
    simp [LexStringAux, hqb]
  · decide

/-- Witness for C5: the escape step at a concrete quote and input. -/
theorem LexString_escape_spec_witness :
    quotechars '"' = true ∧
    LexStringAux '"' ('\\' :: 'x' :: "y".toList) false 0 =
      LexStringAux '"' "y".toList false (0 + 2) :=
  ⟨by decide, LexString_escape_spec.1 '"' 'x' "y".toList 0 (by decide)⟩

/-- Claim C6 (code bug): the `identchars` table omits the entry for
`'Z'` (it lists `'A'` through `'Y'` only), contradicting the function's
own documentation "(a-zA-Z ASCII)" and the spec; so `LexIdent` rejects
`'Z'` and returns 0 on `"Zebra"` where the claim requires the maximal
letter prefix (5). -/
theorem LexIdent_missing_Z :
    identchars 'Z' = false ∧ LexIdent ['Z'] = 0 ∧ LexIdent "Zebra".toList = 0 ∧
    identchars 'Y' = true ∧ identchars 'z' = true ∧ LexIdent "my-variable".toList = 11 := by
  decide

/-- Claim C8 counterexample: invoking `Auto` on a target type without
the text-unmarshal capability that is neither string nor int panics
`"not implemented"` at that very invocation — a runtime failure of an
invocation of `Auto` during scanning, which the claim rules out. -/
theorem Auto_unsupported_counterexample :
    Auto (.tother "float64".toList) 1 "3.25".toList = .panicMsg "not implemented".toList ∧
    (Auto (.tother "float64".toList) 1 "3.25".toList).isTok = false :=
  ⟨rfl, rfl⟩

/-- Claim C8 (amended): coercion to an unsupported target type is a
fatal programming error — `Auto` panics `"not implemented"` on every
such invocation and never yields a token (in particular never a
recoverable error token), while every supported dispatch arm
(unmarshaler, string, int) always returns a token and never panics;
the panic fires at the first runtime invocation during scanning, not at
parser construction. -/
theorem Auto_unsupported_spec :
    (∀ (nm : List Char) (r : Int) (cursor : List Char),
       Auto (.tother nm) r cursor = .panicMsg "not implemented".toList) ∧
    (∀ (f : List Char → Except GoErr Val) (r : Int) (cursor : List Char),
       (Auto (.unmarshaler f) r cursor).isTok = true) ∧
    (∀ (r : Int) (cursor : List Char), (Auto .tstr r cursor).isTok = true) ∧
    (∀ (r : Int) (cursor : List Char), (Auto .tint r cursor).isTok = true) := by
  refine ⟨fun _ _ _ => rfl, ?_, ?_, ?_⟩
  · intro f r cursor
    cases h : f cursor <;> simp [Auto, h, AutoResult.isTok]
  · intro r cursor
    cases h : goUnquote cursor <;> simp [Auto, h, AutoResult.isTok]
  · intro r cursor
    cases h : parseIntGo cursor <;> simp [Auto, h, AutoResult.isTok]

/-- Claim C10: `Token.Error` returns nil for every token with a
non-zero type tag; for a type-0 token it returns the value asserted to
an error, and when that value is not an error — in particular on the
`EOF` sentinel, whose value is the nil interface — the type assertion
panics. -/
theorem Token_Error_spec :
    (∀ t : Token, t.type_ ≠ 0 → Token.Error t = .ok none) ∧
    (∀ (t : Token) (e : GoErr), t.type_ = 0 → t.value = .verr e →
       Token.Error t = .ok (some e)) ∧
    Token.Error eofTok = .assertPanic := by
  refine ⟨?_, ?_, rfl⟩
  · intro t h
    simp [Token.Error, h]
  · intro t e h hv
    simp [Token.Error, h, hv]

/-- Witness for C10 at a token with type tag 5. -/
theorem Token_Error_spec_witness :
    demoErrTok.type_ ≠ 0 ∧ Token.Error demoErrTok = .ok none :=
  ⟨by decide, Token_Error_spec.1 demoErrTok (by decide)⟩

/-- Claim C1 (code bug): in `Synchronize`, a recovered panic value that
is neither a `parseError` nor `stopparsing` is supposed to be re-raised,
but the source re-panics `pe` — the zero-value `parseError{}` left by
the failed type assertion — so the original payload (here 42) is lost
and replaced by an empty structured failure. -/
theorem Synchronize_foreign_panic_zeroed :
    Synchronize sampleSyncState (.rother 42) = .panicPE { pos := {}, msg := [] } := rfl

/-- Claim C2 counterexample: with a sticky scanner error, a mismatching
`Expect` raises the terminal stop signal (recording the scanner error),
not a structured parse failure carrying position and message. -/
theorem Expect_scanner_error_counterexample :
    Expect errScanState (-10) "the option keyword".toList =
      .stop { errScanState with errors := [.srcErr "read failure".toList] } ∧
    (Expect errScanState (-10) "the option keyword".toList).isPerr = false :=
  ⟨rfl, rfl⟩

/-- Claim C2 (amended): for every parser state whose scanner has no
pending source error, `Expect(tag, description)` fetches the lookahead
if needed and, on a type match, consumes it (clears the peek flag) and
returns normally; on a mismatch it raises a structured parse failure
carrying the current token's position and the message
`expected <description>, got "<literal>" instead` built from the
lookahead's lexeme (Go-%q-quoted; literally that shape for lexemes of
printable unescaped characters), and the attached position's line
number is the correct line of the offending token (newlines before its
offset plus one).  When the scanner does carry a source error, a
mismatch instead raises the terminal stop signal. -/
theorem Expect_spec (st : PState) (tk : Int) (msg : List Char)
    (hok : st.sc.err = none) :
    ((lnext st).tok.type_ = tk → Expect st tk msg = .ret { lnext st with peek := false }) ∧
    ((lnext st).tok.type_ ≠ tk →
       Expect st tk msg = .perr (lnext st)
         { pos := locate st.sc (lnext st).tok,
           msg := expectMsg msg (lnext st).tok.lexeme }) ∧
    ((lnext st).tok.type_ ≠ tk → (lnext st).tok.lexeme.all goPlainChar = true →
       Expect st tk msg = .perr (lnext st)
         { pos := locate st.sc (lnext st).tok,
           msg := "expected ".toList ++ msg ++ ", got \"".toList ++
             (lnext st).tok.lexeme ++ "\" instead".toList }) ∧
    (locate st.sc (lnext st).tok).line =
      countNl (st.sc.src.take (lnext st).tok.pos) + 1 := by
  have hsc : (lnext st).sc = st.sc := lnext_sc st
  refine ⟨?_, ?_, ?_, locate_line _ _⟩
  · intro h
    simp [Expect, h]
  · intro h
    simp only [Expect, h, if_false, Errf, hsc, hok]
  · intro h hplain
    simp only [Expect, h, if_false, Errf, hsc, hok, expectMsg_plain msg _ hplain]

/-- Witness for C2 on the TestErrMessage fixture: the mismatch at
`opton` produces the claimed message and position. -/
theorem Expect_spec_witness :
    mismatchState.sc.err = none ∧
    Expect mismatchState (-10) "the option keyword".toList =
      .perr (lnext mismatchState)
        { pos := locate mismatchState.sc (lnext mismatchState).tok,
          msg := "expected ".toList ++ "the option keyword".toList ++ ", got \"".toList ++
            (lnext mismatchState).tok.lexeme ++ "\" instead".toList } :=
  ⟨rfl, (Expect_spec mismatchState (-10) "the option keyword".toList rfl).2.2.1
    (by decide) (by decide)⟩

theorem tokensLoop_terminates (lx : LexFn) (src : List Char) :
    ∀ (fuel start off : Nat), start ≤ off → off ≤ src.length →
      (∀ o, o < src.length → o < (lx src o).2 ∧ (lx src o).2 ≤ src.length) →
      src.length - off + 1 ≤ fuel →
      ∃ tks, tokensLoop lx src fuel start off = tks ++ [eofTok] ∧ eofTok ∉ tks := by
  intro fuel
  induction fuel with
  | zero =>
    intro start off _ _ _ hf
    omega
  | succ fuel ih =>
    intro start off hso hol hlx hf
    by_cases h : off < src.length
    · obtain ⟨h1, h2⟩ := hlx off h
      obtain ⟨tks, htks, hnot⟩ :=
        ih (lx src off).2 (lx src off).2 le_rfl h2 hlx (by omega)
      by_cases hig : (lx src off).1 = ignoreTok
      · refine ⟨tks, ?_, hnot⟩
        simp [tokensLoop, h, hig, htks]
      · refine ⟨{ (lx src off).1 with pos := start, lexeme := extract src start (lx src off).2 } :: tks, ?_, ?_⟩
        · simp [tokensLoop, h, hig, htks]
        · have hpos : 0 < (extract src start (lx src off).2).length := by
            simp only [extract, List.length_take, List.length_drop]
            omega
          simp only [List.mem_cons, not_or]
          refine ⟨?_, hnot⟩
          intro heq
          have hlex := congrArg Token.lexeme heq
          simp only [eofTok] at hlex
          rw [← hlex] at hpos
          simp at hpos
    · refine ⟨[], ?_, by simp⟩
      simp [tokensLoop, h]

/-- Claim C7: if the scanner was constructed with a source load error,
`Tokens` yields a single error-carrying token (which is not the `EOF`
token, and no `EOF` follows); otherwise, for any lexer that makes
progress within bounds (the documented lexer contract), the produced
sequence ends with exactly one `EOF` token — no earlier element is
`EOF` and nothing follows it. -/
theorem Tokens_spec :
    (∀ (sc : StrScanner) (lx : LexFn) (fuel : Nat) (e : GoErr), sc.err = some e →
       Tokens sc lx fuel = [{ type_ := 0, value := .verr e }] ∧
       ({ type_ := 0, value := Val.verr e } : Token) ≠ eofTok) ∧
    (∀ (sc : StrScanner) (lx : LexFn) (fuel : Nat), sc.err = none →
       sc.off ≤ sc.src.length →
       (∀ o, o < sc.src.length → o < (lx sc.src o).2 ∧ (lx sc.src o).2 ≤ sc.src.length) →
       sc.src.length - sc.off + 1 ≤ fuel →
       ∃ tks, Tokens sc lx fuel = tks ++ [eofTok] ∧ eofTok ∉ tks) := by
  constructor
  · intro sc lx fuel e he
    refine ⟨by simp [Tokens, he], ?_⟩
    intro h
    have hv := congrArg Token.value h
    simp [eofTok] at hv
  · intro sc lx fuel he hoff hlx hf
    have h := tokensLoop_terminates lx sc.src fuel 0 sc.off (Nat.zero_le _) hoff hlx hf
    simpa [Tokens, he] using h

/-- Witness for C7: the two-character source `ab` with a
one-character-per-token lexer terminates in a single trailing `EOF`. -/
theorem Tokens_spec_witness :
    demoSc.err = none ∧
    ∃ tks, Tokens demoSc demoLexer 3 = tks ++ [eofTok] ∧ eofTok ∉ tks :=
  ⟨rfl, Tokens_spec.2 demoSc demoLexer 3 rfl (by decide) (by decide) (by decide)⟩

/-- Claim C9: for the string-backed scanner, `Advance` and `Peek`
preserve the cursor invariant `start ≤ off ≤ len(src)` (`Peek` leaves
the state untouched), and each iteration of the `Tokens` loop — for any
lexer that only moves the cursor forward within bounds — restores the
invariant, resets `start` to `off` after the yield, and stamps the
yielded token's lexeme as exactly `src[start:off)` at the moment the
lexer returned. -/
theorem scanner_cursor_invariant :
    (∀ s : StrScanner, s.start ≤ s.off → s.off ≤ s.src.length →
       (Advance s).2.start ≤ (Advance s).2.off ∧
       (Advance s).2.off ≤ (Advance s).2.src.length) ∧
    (∀ s : StrScanner, (PeekS s).2 = s) ∧
    (∀ (lx : LexFn) (s : StrScanner), s.start ≤ s.off → s.off ≤ s.src.length →
       (∀ o, o < s.src.length → o < (lx s.src o).2 ∧ (lx s.src o).2 ≤ s.src.length) →
       ((tokensIter lx s).2.start ≤ (tokensIter lx s).2.off ∧
        (tokensIter lx s).2.off ≤ (tokensIter lx s).2.src.length ∧
        (s.off < s.src.length → (tokensIter lx s).2.start = (tokensIter lx s).2.off) ∧
        (s.off < s.src.length → (lx s.src s.off).1 ≠ ignoreTok →
          (tokensIter lx s).1 = some { (lx s.src s.off).1 with
            pos := s.start, lexeme := extract s.src s.start (lx s.src s.off).2 }))) := by
  refine ⟨?_, ?_, ?_⟩
  · intro s h1 h2
    unfold Advance
    split
    · constructor <;> simp <;> omega
    · exact ⟨h1, h2⟩
  · intro s
    unfold PeekS
    split <;> rfl
  · intro lx s h1 h2 hlx
    by_cases h : s.off < s.src.length
    · obtain ⟨ha, hb⟩ := hlx s.off h
      refine ⟨?_, ?_, ?_, ?_⟩
      · simp [tokensIter, h]
      · simp [tokensIter, h]
        exact hb
      · intro _
        simp [tokensIter, h]
      · intro _ hig
        simp [tokensIter, h, hig]
    · refine ⟨?_, ?_, ?_, ?_⟩
      · simp [tokensIter, h]
        exact h1
      · simp [tokensIter, h]
        exact h2
      · intro hcon
        exact absurd hcon h
      · intro hcon
        exact absurd hcon h

/-- Witness for C9: `Advance` on the fixture scanner keeps the cursor
invariant. -/
theorem scanner_cursor_invariant_witness :
    demoSc.start ≤ demoSc.off ∧
    ((Advance demoSc).2.start ≤ (Advance demoSc).2.off ∧
     (Advance demoSc).2.off ≤ (Advance demoSc).2.src.length) :=
  ⟨by decide, scanner_cursor_invariant.1 demoSc (by decide) (by decide)⟩

/-- Witness for C8 (amended): concrete unsupported-type invocation. -/
theorem Auto_unsupported_spec_witness :
    Auto (.tother "time.Time".toList) 2 "2023/11/03".toList =
      .panicMsg "not implemented".toList :=
  Auto_unsupported_spec.1 "time.Time".toList 2 "2023/11/03".toList
